import Mathlib

/-!
Verification of the text-to-Markdown conversion core of pdf2md.

The Rust functions `convert_to_markdown`, `is_likely_heading`,
`determine_heading_level` and `detect_and_format` from src/main.rs are
embedded over `List Char`.  Rust's byte lengths, Unicode character classes
and Unicode uppercasing are modelled by Lean's character-count `List.length`,
`Char.isDigit` / `Char.isAlpha` / `Char.isWhitespace` and `Char.toUpper`;
all concrete inputs appearing in the claims are ASCII, where these agree.
-/

set_option maxRecDepth 4000

namespace Pdf2Md

/-- Mode flag of the conversion loop: the Rust code stores the string
"p" or "h" in its local variable current_block_type. -/
inductive BlockType where
  | p : BlockType
  | h : BlockType
deriving DecidableEq

/-- Model of Rust str::trim on a character list. -/
def rustTrim (s : List Char) : List Char :=
  ((s.dropWhile Char.isWhitespace).reverse.dropWhile Char.isWhitespace).reverse

/-- Drop one trailing carriage return, as Rust str::lines does for a line
terminated by a CRLF sequence. -/
def stripCr (l : List Char) : List Char :=
  if l.getLast? = some '\r' then l.dropLast else l

/-- Worker for rustLines, accumulating the current line in reverse. -/
def rustLinesGo : List Char → List Char → List (List Char)
  | [], acc => [acc.reverse]
  | c :: rest, acc =>
    if c = '\n' then
      stripCr acc.reverse :: (if rest.isEmpty then [] else rustLinesGo rest [])
    else
      rustLinesGo rest (c :: acc)

/-- Model of Rust str::lines: split on newline, strip a trailing CR from a
newline-terminated line, and produce no final empty line when the string
ends with a newline. -/
def rustLines (s : List Char) : List (List Char) :=
  if s.isEmpty then [] else rustLinesGo s []

/-- Worker for split_whitespace. -/
def splitWsGo : List Char → List Char → List (List Char)
  | [], acc => if acc.isEmpty then [] else [acc.reverse]
  | c :: rest, acc =>
    if c.isWhitespace then
      (if acc.isEmpty then [] else [acc.reverse]) ++ splitWsGo rest []
    else
      splitWsGo rest (c :: acc)

/-- Model of Rust str::split_whitespace: the maximal whitespace-free words,
in order, with no empty words. -/
def split_whitespace (s : List Char) : List (List Char) :=
  splitWsGo s []

/-- Condition under which detect_and_format bolds a word, from src/main.rs:
word.to_uppercase() == word && word.len() > 1 && word has an alphabetic char. -/
def isShoutWord (w : List Char) : Bool :=
  (w.map Char.toUpper == w) && decide (1 < w.length) && w.any Char.isAlpha

/-- Per-word output of detect_and_format before the separating space is
appended: either **word** or the word unchanged. -/
def fmtWord (w : List Char) : List Char :=
  if isShoutWord w then '*' :: '*' :: (w ++ ['*', '*']) else w

/-- Model of detect_and_format in src/main.rs: for each whitespace-separated
word, push either "**word** " or "word " onto the result, then trim. -/
def detect_and_format (text : List Char) : List Char :=
  rustTrim (List.foldl (fun r w => r ++ (fmtWord w ++ [' '])) [] (split_whitespace text))

/-- Model of is_likely_heading in src/main.rs: length below 100, the line
does not end with a period, and the line contains no comma. -/
def is_likely_heading (line : List Char) : Bool :=
  decide (line.length < 100) && !(line.getLast? == some '.') && !(line.contains ',')

/-- Model of determine_heading_level in src/main.rs. -/
def determine_heading_level (pfx : List Char) (text : List Char) : Nat :=
  if List.isPrefixOf ['1', '.'] pfx then 1
  else if List.isPrefixOf ['1', '.', '1'] pfx || List.isPrefixOf ['2', '.'] pfx then 2
  else if decide (text.length < 30) && (text.map Char.toUpper == text) then 1
  else 3

/-- First alternative of heading_regex's optional group: digits, a single
period, then whitespace, with greedy matching and the backtracking needed so
that the final mandatory group can still consume one character.  Returns the
pair (group 1 match, remaining text = group 2 match). -/
def numDotGroup (s : List Char) : Option (List Char × List Char) :=
  let ds := s.takeWhile Char.isDigit
  if ds.isEmpty then none
  else
    match s.dropWhile Char.isDigit with
    | [] => none
    | c :: r2 =>
      if c = '.' then
        let ws := r2.takeWhile Char.isWhitespace
        let rest := r2.dropWhile Char.isWhitespace
        if ws.isEmpty then none
        else if rest.isEmpty then
          if 2 ≤ ws.length then some (ds ++ '.' :: ws.dropLast, [ws.getLast!]) else none
        else some (ds ++ '.' :: ws, rest)
      else none

/-- Second alternative of the optional group: a run of hash marks then
whitespace, with the same backtracking as numDotGroup. -/
def hashGroup (s : List Char) : Option (List Char × List Char) :=
  let hs := s.takeWhile (fun c => c = '#')
  let r2 := s.dropWhile (fun c => c = '#')
  if hs.isEmpty then none
  else
    let ws := r2.takeWhile Char.isWhitespace
    let rest := r2.dropWhile Char.isWhitespace
    if ws.isEmpty then none
    else if rest.isEmpty then
      if 2 ≤ ws.length then some (hs ++ ws.dropLast, [ws.getLast!]) else none
    else some (hs ++ ws, rest)

/-- Model of heading_regex.captures(line) for the anchored pattern of
src/main.rs line 65: optional leading whitespace, an optional group
(digits period spaces, or hashes spaces), then at least one character.
Returns (capture 1 or empty when absent, capture 2); none when the line
cannot match at all (only the empty line, since the program applies the
regex to nonempty newline-free lines). -/
def regexCaptures (s : List Char) : Option (List Char × List Char) :=
  if s.isEmpty then none
  else if s.all Char.isWhitespace then some ([], [s.getLast!])
  else
    match numDotGroup (s.dropWhile Char.isWhitespace) with
    | some r => some r
    | none =>
      match hashGroup (s.dropWhile Char.isWhitespace) with
      | some r => some r
      | none => some ([], s.dropWhile Char.isWhitespace)

/-- Paragraph-mode append step of convert_to_markdown: in mode p, add a
joining space when the accumulator neither ends with a hard break nor is
empty, then the formatted line; directly after a heading, add the formatted
line plus a hard break and return to mode p. -/
def paraAppend (md : List Char) (bt : BlockType) (formatted : List Char) :
    List Char × BlockType :=
  match bt with
  | BlockType.p =>
    ((if !(List.isSuffixOf ['\n', '\n'] md) && !md.isEmpty then md ++ [' '] else md)
        ++ formatted, BlockType.p)
  | BlockType.h => (md ++ (formatted ++ ['\n', '\n']), BlockType.p)

/-- Main loop of convert_to_markdown over the extracted lines, carrying the
accumulated markdown string and current_block_type. -/
def convLoop : List (List Char) → List Char → BlockType → List Char
  | [], md, _ => md
  | line :: rest, md, bt =>
    if (rustTrim line).isEmpty then
      convLoop rest (md ++ ['\n', '\n']) bt
    else
      match regexCaptures (rustTrim line) with
      | some (pfx, text) =>
        if pfx.contains '.' || is_likely_heading (rustTrim line) then
          convLoop rest
            (md ++ (List.replicate (determine_heading_level pfx (rustTrim line)) '#'
              ++ ' ' :: (text ++ ['\n', '\n'])))
            BlockType.h
        else
          convLoop rest (paraAppend md bt (detect_and_format (rustTrim line))).1
            (paraAppend md bt (detect_and_format (rustTrim line))).2
      | none =>
        convLoop rest (paraAppend md bt (detect_and_format (rustTrim line))).1
          (paraAppend md bt (detect_and_format (rustTrim line))).2

/-- Pure core of convert_to_markdown on a Lean string. -/
def convertString (content : String) : String :=
  String.mk (convLoop (rustLines content.data) [] BlockType.p)

/-- Model of convert_to_markdown in src/main.rs.  The Rust function returns
Result of String; its body contains no fallible operation and ends in
Ok(markdown), so the model wraps the pure core in Except.ok. -/
def convert_to_markdown (content : String) : Except String String :=
  Except.ok (convertString content)

/-- Spec §4.3 word joining: rejoin words with single spaces. -/
def joinSp : List (List Char) → List Char
  | [] => []
  | w :: ws =>
    match ws with
    | [] => w
    | _ => w ++ ' ' :: joinSp ws

/-- Modelled from the spec (for comparison only, not from the source):
§4.3 Inline Emphasis Formatter contract — split on whitespace runs, wrap
qualifying words in double asterisks, rejoin with single spaces, trim
leading and trailing whitespace. -/
def formatSpec (text : List Char) : List Char :=
  rustTrim (joinSp ((split_whitespace text).map fmtWord))

/-! Helper lemmas about trimming and splitting. -/

/-- Dropping while a predicate holds is idempotent. -/
theorem dropWhile_dropWhile (p : Char → Bool) (l : List Char) :
    (l.dropWhile p).dropWhile p = l.dropWhile p := by
  induction l with
  | nil => rfl
  | cons a l ih =>
    by_cases h : p a = true
    · simp [List.dropWhile_cons, h, ih]
    · simp [List.dropWhile_cons, h]

/-- A prefix of a dropWhile-fixed list is itself dropWhile-fixed. -/
theorem dropWhile_eq_self_of_prefix (p : Char → Bool) (u w r : List Char)
    (hu : u.dropWhile p = u) (heq : u = w ++ r) : w.dropWhile p = w := by
  cases w with
  | nil => rfl
  | cons a w' =>
    have hlen := (List.dropWhile_suffix (l := w' ++ r) p).length_le
    by_cases h : p a = true
    · exfalso
      rw [heq, List.cons_append, List.dropWhile_cons, if_pos h] at hu
      have h2 := congrArg List.length hu
      rw [List.length_cons] at h2
      omega
    · simp [List.dropWhile_cons, h]

/-- rustTrim is idempotent. -/
theorem rustTrim_idem (s : List Char) : rustTrim (rustTrim s) = rustTrim s := by
  have hu : (List.dropWhile Char.isWhitespace s).dropWhile Char.isWhitespace
      = List.dropWhile Char.isWhitespace s := dropWhile_dropWhile _ _
  have hsuf : (List.dropWhile Char.isWhitespace s).reverse.dropWhile Char.isWhitespace
      <:+ (List.dropWhile Char.isWhitespace s).reverse := List.dropWhile_suffix _
  obtain ⟨t, ht⟩ := hsuf
  have hw : List.dropWhile Char.isWhitespace s
      = ((List.dropWhile Char.isWhitespace s).reverse.dropWhile Char.isWhitespace).reverse
        ++ t.reverse := by
    have hrev := congrArg List.reverse ht
    rw [List.reverse_append, List.reverse_reverse] at hrev
    exact hrev.symm
  have h1 := dropWhile_eq_self_of_prefix Char.isWhitespace
    (List.dropWhile Char.isWhitespace s)
    ((List.dropWhile Char.isWhitespace s).reverse.dropWhile Char.isWhitespace).reverse
    t.reverse hu hw
  show rustTrim
      ((((s.dropWhile Char.isWhitespace).reverse).dropWhile Char.isWhitespace).reverse)
    = _
  unfold rustTrim
  rw [h1, List.reverse_reverse]
  rw [dropWhile_dropWhile]

/-- Appending one trailing space does not change the trimmed value. -/
theorem rustTrim_app_space (x : List Char) : rustTrim (x ++ [' ']) = rustTrim x := by
  unfold rustTrim
  rw [List.dropWhile_append]
  by_cases h : (List.dropWhile Char.isWhitespace x).isEmpty = true
  · rw [if_pos h]
    have hx : List.dropWhile Char.isWhitespace x = [] := by
      cases hc : List.dropWhile Char.isWhitespace x
      · rfl
      · rw [hc] at h; simp at h
    rw [hx]
    decide
  · rw [if_neg h, List.reverse_append]
    simp [List.dropWhile_cons]

/-- Concatenation of the per-word chunks that detect_and_format pushes. -/
def chunksFmt : List (List Char) → List Char
  | [] => []
  | w :: ws => (fmtWord w ++ [' ']) ++ chunksFmt ws

/-- The foldl of detect_and_format just appends the word chunks. -/
theorem foldl_fmt (l : List (List Char)) : ∀ acc : List Char,
    List.foldl (fun r w => r ++ (fmtWord w ++ [' '])) acc l = acc ++ chunksFmt l := by
  induction l with
  | nil => intro acc; simp [chunksFmt]
  | cons w ws ih =>
    intro acc
    simp only [List.foldl_cons, chunksFmt, ih, List.append_assoc]

/-- Chunk concatenation is the single-space join plus one trailing space
whenever at least one word is present. -/
theorem chunksFmt_eq (l : List (List Char)) :
    chunksFmt l = joinSp (l.map fmtWord) ++ (if l.isEmpty then [] else [' ']) := by
  induction l with
  | nil => rfl
  | cons w ws ih =>
    cases ws with
    | nil => simp [chunksFmt, joinSp]
    | cons x ws' =>
      have hj : joinSp (fmtWord w :: fmtWord x :: List.map fmtWord ws')
          = fmtWord w ++ ' ' :: joinSp (fmtWord x :: List.map fmtWord ws') := rfl
      calc chunksFmt (w :: x :: ws')
          = (fmtWord w ++ [' ']) ++ chunksFmt (x :: ws') := rfl
        _ = (fmtWord w ++ [' ']) ++ (joinSp (fmtWord x :: List.map fmtWord ws') ++ [' ']) := by
              rw [ih]
              simp
        _ = joinSp (List.map fmtWord (w :: x :: ws')) ++ [' '] := by
              rw [List.map_cons, List.map_cons, hj]
              simp [List.append_assoc]

/-- Helper: a digit character is not whitespace. -/
theorem digit_not_ws (c : Char) (h : c.isDigit = true) : c.isWhitespace = false := by
  cases hw : c.isWhitespace
  · rfl
  · exfalso
    have hmem : ((c = ' ' ∨ c = '\t') ∨ c = '\r') ∨ c = '\n' := by
      simpa [Char.isWhitespace] using hw
    rcases hmem with ((h1 | h1) | h1) | h1 <;> rw [h1] at h <;> exact absurd h (by decide)

/-- takeWhile and dropWhile across an all-satisfying block followed by a
failing element. -/
theorem tw_dw_of_all (p : Char → Bool) (l : List Char) (c : Char) (t : List Char)
    (hl : l.all p = true) (hc : p c = false) :
    (l ++ c :: t).takeWhile p = l ∧ (l ++ c :: t).dropWhile p = c :: t := by
  induction l with
  | nil => simp [List.takeWhile_cons, List.dropWhile_cons, hc]
  | cons a l ih =>
    rw [List.all_cons, Bool.and_eq_true] at hl
    have := ih hl.2
    simp [List.takeWhile_cons, List.dropWhile_cons, hl.1, this.1, this.2]

/-- C7: detect_and_format splits its input on whitespace runs, wraps exactly
the words equal to their own uppercasing with length above one and at least
one alphabetic character in double asterisks, passes other words through,
rejoins with single spaces, and returns a string without leading or trailing
whitespace; in particular it maps "THIS is IMPORTANT" to
"**THIS** is **IMPORTANT**" and the empty string to the empty string. -/
theorem claim7_detect_and_format_spec :
    (∀ t : List Char, detect_and_format t = formatSpec t)
    ∧ (∀ t : List Char, rustTrim (detect_and_format t) = detect_and_format t)
    ∧ detect_and_format "THIS is IMPORTANT".data = "**THIS** is **IMPORTANT**".data
    ∧ detect_and_format "".data = [] := by
  have main : ∀ t : List Char, detect_and_format t = formatSpec t := by
    intro t
    unfold detect_and_format formatSpec
    rw [foldl_fmt, chunksFmt_eq, List.nil_append]
    cases hsw : split_whitespace t with
    | nil => simp [joinSp]
    | cons w ws =>
      simp only [List.isEmpty_cons]
      rw [if_neg (by decide : ¬(false = true))]
      rw [rustTrim_app_space]
  refine ⟨main, fun t => ?_, by decide, by decide⟩
  rw [main t]
  unfold formatSpec
  exact rustTrim_idem _

/-- C9: convert_to_markdown is total and never produces an error: it always
returns Ok, it maps the empty string to the empty string, and a string of
only blank lines also has a defined output. -/
theorem claim9_total_never_errors :
    (∀ s : String, convert_to_markdown s = Except.ok (convertString s))
    ∧ convert_to_markdown "" = Except.ok ""
    ∧ convert_to_markdown "\n\n" = Except.ok "\n\n\n\n" :=
  ⟨fun _ => rfl, rfl, rfl⟩

/-- C1: the claim (and the repository's own test) expects
convert_to_markdown "Hello World" = "Hello World", but the code classifies
the line as a heading via is_likely_heading and emits "### Hello World\n\n". -/
theorem claim1_hello_world_evaluation :
    convert_to_markdown "Hello World" = Except.ok "### Hello World\n\n"
    ∧ "### Hello World\n\n" ≠ "Hello World" :=
  ⟨congrArg Except.ok (by decide), by decide⟩

/-- C2: the claim (and the repository's own test) expects the second line to
stay an unmarked paragraph, but the code classifies it as a heading via
is_likely_heading and emits a depth-3 heading with a trailing hard break. -/
theorem claim2_heading_scenario_evaluation :
    convert_to_markdown "1. INTRODUCTION\nThis is a sample text"
        = Except.ok "# INTRODUCTION\n\n### This is a sample text\n\n"
    ∧ "# INTRODUCTION\n\n### This is a sample text\n\n"
        ≠ "# INTRODUCTION\n\nThis is a sample text" :=
  ⟨congrArg Except.ok (by decide), by decide⟩

/-- C6: the claim expects the trimmed line to be a bold-formatted paragraph
"**THIS** **IS** **IMPORTANT**" (which is exactly what detect_and_format
yields on the trimmed line), but the code classifies the short all-caps line
as a depth-1 heading and emits "# THIS IS IMPORTANT\n\n". -/
theorem claim6_emphasis_scenario_evaluation :
    convert_to_markdown "   THIS IS IMPORTANT   " = Except.ok "# THIS IS IMPORTANT\n\n"
    ∧ "# THIS IS IMPORTANT\n\n" ≠ "**THIS** **IS** **IMPORTANT**"
    ∧ detect_and_format (rustTrim "   THIS IS IMPORTANT   ".data)
        = "**THIS** **IS** **IMPORTANT**".data :=
  ⟨congrArg Except.ok (by decide), by decide, by decide⟩

/-- C3 counterexample: the line "1. INTRODUCTION" is emitted as a heading
whose body INTRODUCTION is all-uppercase, yet the output contains no
asterisk at all, so the emphasis formatter was not applied to it. -/
theorem claim3_counterexample :
    convertString "1. INTRODUCTION" = "# INTRODUCTION\n\n"
    ∧ ¬ '*' ∈ (convertString "1. INTRODUCTION").data :=
  ⟨by decide, by decide⟩

/-- C3 amended: detect_and_format runs only on non-blank lines classified as
paragraphs; a line classified as a heading is emitted with its body text
verbatim (no asterisk wrapping), as the loop equation below shows, and in
particular "1. INTRODUCTION" becomes "# INTRODUCTION\n\n". -/
theorem claim3_heading_body_verbatim :
    (∀ (line : List Char) (rest : List (List Char)) (md : List Char) (bt : BlockType)
        (pfx text : List Char),
      regexCaptures (rustTrim line) = some (pfx, text) →
      (pfx.contains '.' || is_likely_heading (rustTrim line)) = true →
      convLoop (line :: rest) md bt
        = convLoop rest
            (md ++ (List.replicate (determine_heading_level pfx (rustTrim line)) '#'
              ++ ' ' :: (text ++ ['\n', '\n'])))
            BlockType.h)
    ∧ convertString "1. INTRODUCTION" = "# INTRODUCTION\n\n" := by
  constructor
  · intro line rest md bt pfx text h1 h2
    have hne : (rustTrim line).isEmpty = false := by
      cases h : rustTrim line with
      | nil => rw [h] at h1; simp [regexCaptures] at h1
      | cons a l => rfl
    simp only [convLoop, hne, h1, h2]
    simp
  · decide

/-- C3 witness: the heading equation of claim3_heading_body_verbatim applied
to the concrete line "1. INTRODUCTION". -/
theorem claim3_witness :
    convLoop ["1. INTRODUCTION".data] [] BlockType.p
      = convLoop []
          ([] ++ (List.replicate
              (determine_heading_level ['1', '.', ' '] (rustTrim "1. INTRODUCTION".data)) '#'
            ++ ' ' :: ("INTRODUCTION".data ++ ['\n', '\n'])))
          BlockType.h :=
  claim3_heading_body_verbatim.1 "1. INTRODUCTION".data [] [] BlockType.p
    ['1', '.', ' '] "INTRODUCTION".data (by decide) (by decide)

/-- C4 counterexample: the line "1.1 SOME HEADING" is emitted at depth 1,
not depth 2: the output is "# 1.1 SOME HEADING\n\n" and does not start with
two hash marks. -/
theorem claim4_counterexample :
    convertString "1.1 SOME HEADING" = "# 1.1 SOME HEADING\n\n"
    ∧ List.isPrefixOf ['#', '#'] (convertString "1.1 SOME HEADING").data = false :=
  ⟨by decide, by decide⟩

/-- C4 amended: a line beginning with "1.1" never has a prefix extracted by
heading_regex (whose group requires digits, one period, then whitespace), so
the depth-2 rule for a "1.1" prefix cannot fire from the classifier; the
line "1.1 SOME HEADING" is classified instead by the short all-caps rule at
depth 1, with the "1.1" retained in the emitted text. -/
theorem claim4_no_one_dot_one_capture :
    (∀ rest : List Char,
      regexCaptures ('1' :: '.' :: '1' :: rest) = some ([], '1' :: '.' :: '1' :: rest))
    ∧ convertString "1.1 SOME HEADING" = "# 1.1 SOME HEADING\n\n" := by
  constructor
  · intro rest
    simp +decide [regexCaptures, numDotGroup, hashGroup,
      List.takeWhile_cons, List.dropWhile_cons]
  · decide

/-- Helper: a list containing a period contains a period. -/
theorem contains_dot (l t : List Char) : (l ++ '.' :: t).contains '.' = true := by
  induction l with
  | nil => simp [List.contains_cons]
  | cons a l ih => simp [List.contains_cons, ih]

/-- C5 counterexample: the line "1.2 Overview" begins with a run of digits
and dots followed by whitespace, yet heading_regex extracts no prefix from
it (the captured prefix is empty) and the emitted heading keeps the "1.2"
in its text instead of stripping it. -/
theorem claim5_counterexample :
    regexCaptures "1.2 Overview".data = some ([], "1.2 Overview".data)
    ∧ convertString "1.2 Overview" = "### 1.2 Overview\n\n" :=
  ⟨by decide, by decide⟩

/-- C5 amended: the extracted marker pattern is a digit run followed by a
single period and then whitespace (such as "3. "), not an arbitrary run of
digits and dots; for lines of that shape the marker, including its trailing
whitespace, is captured as the prefix, the remainder as the body, the prefix
contains a period (so the line is classified as a heading), and for example
"3. Intro" is emitted as "### Intro\n\n" with the prefix stripped. -/
theorem claim5_digits_dot_ws_captured :
    (∀ (d : Char) (ds : List Char) (w : Char) (ws : List Char) (c : Char) (rest : List Char),
      (d :: ds).all Char.isDigit = true →
      (w :: ws).all Char.isWhitespace = true →
      c.isWhitespace = false →
      regexCaptures ((d :: ds) ++ '.' :: ((w :: ws) ++ c :: rest))
          = some ((d :: ds) ++ '.' :: (w :: ws), c :: rest)
        ∧ ((d :: ds) ++ '.' :: (w :: ws)).contains '.' = true)
    ∧ convertString "3. Intro" = "### Intro\n\n" := by
  constructor
  · intro d ds w ws c rest hd hw hc
    have hd1 : Char.isDigit d = true := by
      have hd' := hd
      rw [List.all_cons, Bool.and_eq_true] at hd'
      exact hd'.1
    have hdw : Char.isWhitespace d = false := digit_not_ws d hd1
    have htw := tw_dw_of_all Char.isDigit (d :: ds) '.' ((w :: ws) ++ c :: rest) hd (by decide)
    have hww := tw_dw_of_all Char.isWhitespace (w :: ws) c rest hw hc
    refine ⟨?_, contains_dot (d :: ds) (w :: ws)⟩
    simp only [List.cons_append] at htw hww ⊢
    simp [regexCaptures, numDotGroup, hashGroup, htw.1, htw.2, hww.1, hww.2,
      hdw, List.dropWhile_cons, List.all_cons]
  · decide

/-- C5 witness: the capture equation at the concrete line "1. A". -/
theorem claim5_witness :
    regexCaptures (('1' :: []) ++ '.' :: ((' ' :: []) ++ 'A' :: []))
        = some (('1' :: []) ++ '.' :: (' ' :: []), 'A' :: [])
      ∧ (('1' :: []) ++ '.' :: (' ' :: [])).contains '.' = true :=
  claim5_digits_dot_ws_captured.1 '1' [] ' ' [] 'A' []
    (by decide) (by decide) (by decide)

/-- C8: every input line that trims to empty appends exactly one hard break
to the accumulator, independently of the line's own characters, and n
consecutive blank lines append n hard breaks with no collapsing. -/
theorem claim8_blank_line_hard_break :
    (∀ (line : List Char) (rest : List (List Char)) (md : List Char) (bt : BlockType),
      rustTrim line = [] →
      convLoop (line :: rest) md bt = convLoop rest (md ++ ['\n', '\n']) bt)
    ∧ (∀ (n : Nat) (blk : List Char) (rest : List (List Char)) (md : List Char)
        (bt : BlockType),
      rustTrim blk = [] →
      convLoop (List.replicate n blk ++ rest) md bt
        = convLoop rest (md ++ List.replicate (2 * n) '\n') bt) := by
  have step : ∀ (line : List Char) (rest : List (List Char)) (md : List Char)
      (bt : BlockType), rustTrim line = [] →
      convLoop (line :: rest) md bt = convLoop rest (md ++ ['\n', '\n']) bt := by
    intro line rest md bt h
    simp only [convLoop, h]
    rfl
  refine ⟨step, ?_⟩
  intro n blk rest md bt h
  induction n generalizing md with
  | zero => simp
  | succ k ih =>
    have hrep : List.replicate (k + 1) blk ++ rest
        = blk :: (List.replicate k blk ++ rest) := by
      simp [List.replicate_succ]
    rw [hrep, step blk _ md bt h, ih]
    have h2 : 2 * (k + 1) = 2 * k + 1 + 1 := by ring
    rw [h2, List.replicate_succ, List.replicate_succ, List.append_assoc]
    rfl

/-- C8 witness: the hard-break equations at a concrete blank line of one
space, and at two consecutive blank lines. -/
theorem claim8_witness :
    convLoop ([' '] :: [['a']]) ['x'] BlockType.p
        = convLoop [['a']] (['x'] ++ ['\n', '\n']) BlockType.p
      ∧ convLoop (List.replicate 2 [' '] ++ [['a']]) [] BlockType.h
        = convLoop [['a']] ([] ++ List.replicate (2 * 2) '\n') BlockType.h :=
  ⟨claim8_blank_line_hard_break.1 [' '] [['a']] ['x'] BlockType.p (by decide),
   claim8_blank_line_hard_break.2 2 [' '] [['a']] [] BlockType.h (by decide)⟩

/-- C10: determine_heading_level returns 2 exactly when the prefix starts
with "2."; a prefix starting with "1.1" also starts with "1." and is
therefore assigned depth 1 by the earlier rule, so the "1.1" alternative of
the depth-2 condition is never the deciding rule. -/
theorem claim10_level_two_iff :
    ∀ (pfx text : List Char),
      (determine_heading_level pfx text = 2 ↔ List.isPrefixOf ['2', '.'] pfx = true)
      ∧ (List.isPrefixOf ['1', '.', '1'] pfx = true → determine_heading_level pfx text = 1) := by
  intro pfx text
  have h11 : List.isPrefixOf ['1', '.', '1'] pfx = true
      → List.isPrefixOf ['1', '.'] pfx = true := by
    intro h
    rw [List.isPrefixOf_iff_prefix] at h ⊢
    exact List.IsPrefix.trans ⟨['1'], rfl⟩ h
  have h12 : List.isPrefixOf ['2', '.'] pfx = true
      → List.isPrefixOf ['1', '.'] pfx = true → False := by
    intro h2 h1
    rw [List.isPrefixOf_iff_prefix] at h2 h1
    obtain ⟨t2, ht2⟩ := h2
    obtain ⟨t1, ht1⟩ := h1
    rw [← ht2] at ht1
    simp at ht1
  by_cases hA : List.isPrefixOf ['1', '.'] pfx = true
  · have hn2 : List.isPrefixOf ['2', '.'] pfx = false := by
      cases h2 : List.isPrefixOf ['2', '.'] pfx
      · rfl
      · exact absurd (h12 h2 hA) not_false
    refine ⟨⟨fun h => ?_, fun h => ?_⟩, fun _ => ?_⟩
    · rw [determine_heading_level, if_pos hA] at h
      exact absurd h (by decide)
    · rw [hn2] at h
      exact absurd h (by decide)
    · rw [determine_heading_level, if_pos hA]
  · have hn11 : List.isPrefixOf ['1', '.', '1'] pfx = false := by
      cases h1 : List.isPrefixOf ['1', '.', '1'] pfx
      · rfl
      · exact absurd (h11 h1) hA
    refine ⟨⟨fun h => ?_, fun h => ?_⟩, fun h => ?_⟩
    · by_cases h2 : List.isPrefixOf ['2', '.'] pfx = true
      · exact h2
      · exfalso
        rw [determine_heading_level, if_neg hA] at h
        rw [hn11] at h
        simp only [Bool.false_or] at h
        rw [if_neg (by simp [h2])] at h
        split at h
        · exact absurd h (by decide)
        · exact absurd h (by decide)
    · rw [determine_heading_level, if_neg hA, hn11, h]
      simp
    · rw [hn11] at h
      exact absurd h (by decide)

/-- C10 witness: the depth-1 outcome at the concrete prefix "1.1 ". -/
theorem claim10_witness :
    determine_heading_level ['1', '.', '1', ' '] ['x'] = 1 :=
  (claim10_level_two_iff ['1', '.', '1', ' '] ['x']).2 (by decide)

end Pdf2Md
